import Mathlib

/-!
Verification development for the slab-agent repository.

The Python sources (src/parsing.py, src/agent.py, src/tools/materials_project.py,
src/tools/pmg_slab_thickness.py) are shallowly embedded below.  Text is modelled
as `List Char`; Python floats are modelled as exact rationals `ℚ` (the decimal
literals appearing in the regexes and claims are exactly representable for every
comparison made here); Python `None`/exceptions are modelled with `Option`/`Except`.

Regex semantics: the embeddings implement `re.search`'s leftmost-match scan
directly: a matcher `f : Bool → List Char → Option α` decides whether the
pattern matches at the head of a suffix (the `Bool` carries whether the previous
character is a word character, for `\b` boundaries), and `rscan` tries every
position from the left, exactly as `re.search` does.  For each pattern the
matcher is derived from the regex by the standard greedy/backtracking analysis,
recorded in a comment at the matcher.  Character classes (`\d`, `\s`, `\w`,
`[A-Za-z]`) are modelled at ASCII precision; the inputs of all concrete claims
are ASCII.
-/

/-- Python `\s` (ASCII part): space, tab, newline, carriage return, vertical tab, form feed. -/
def isPySpace (c : Char) : Bool :=
  c = ' ' || c = '\t' || c = '\n' || c = '\r' || c = '\x0b' || c = '\x0c'

/-- ASCII letter, the regex class `[A-Za-z]`. -/
def isAsciiLetter (c : Char) : Bool :=
  ('A' ≤ c && c ≤ 'Z') || ('a' ≤ c && c ≤ 'z')

/-- The regex class `[A-Za-z0-9]`. -/
def isAlnumPy (c : Char) : Bool :=
  isAsciiLetter c || c.isDigit

/-- Python `\w` (ASCII part): letters, digits, underscore. -/
def isWordChar (c : Char) : Bool :=
  isAlnumPy c || c = '_'

/-- Whether the first character of `l` (if any) is a word character: used for `\b` after a match. -/
def isWordHead (l : List Char) : Bool :=
  match l.head? with
  | some c => isWordChar c
  | none => false

def digitVal (c : Char) : Nat := c.toNat - 48

def digitValI (c : Char) : Int := (digitVal c : Int)

/-- Value of a list of decimal digit characters (Python `int` on an all-digit string). -/
def natOfDigits (l : List Char) : Nat := l.foldl (fun a c => a * 10 + digitVal c) 0

/-- Python `str.lower()` (ASCII precision). -/
def lowerL (l : List Char) : List Char := l.map Char.toLower

/-- Python `str.strip()` (whitespace strip at both ends). -/
def trimPy (l : List Char) : List Char :=
  ((l.dropWhile isPySpace).reverse.dropWhile isPySpace).reverse

/-- The word-character status of the character immediately before the suffix
reached after skipping prefix `a`, given that before `a` it was `pw`. -/
def prevWordAfter (pw : Bool) (a : List Char) : Bool :=
  match a.getLast? with
  | some c => isWordChar c
  | none => pw

/-- `re.search` as a leftmost scan: try the matcher at every position, left to
right, threading whether the previous character is a word character. -/
def rscan {α : Type} (f : Bool → List Char → Option α) : Bool → List Char → Option α
  | pw, [] => f pw []
  | pw, c :: rest =>
    match f pw (c :: rest) with
    | some x => some x
    | none => rscan f (isWordChar c) rest

/-- Case-insensitive literal-prefix match (pattern given in lowercase); returns
the rest of the input after the literal.  Models a lowercase regex literal under
`re.IGNORECASE` at ASCII precision. -/
def ciStarts : List Char → List Char → Option (List Char)
  | [], l => some l
  | p :: ps, c :: cs => if c.toLower = p then ciStarts ps cs else none
  | _ :: _, [] => none

/-! ### src/parsing.py : parse_miller -/

/-- The character class `[-\d,\s]` of the Miller-parenthesis regex. -/
def millerChar (c : Char) : Bool :=
  c.isDigit || c = '-' || c = ',' || isPySpace c

/-- Matcher for `\(\s*([-\d,\s]+)\s*\)` at the head of `l`.  Since the class
`[-\d,\s]` contains `\s` and excludes `)`, the greedy/backtracking semantics
collapse to: after `(` the maximal run of class characters must be nonempty and
be followed immediately by `)`; the captured group (after the `.strip()` done by
the caller) carries the same tokens as that whole run. -/
def parenAt (_pw : Bool) (l : List Char) : Option (List Char) :=
  match l with
  | '(' :: r =>
    let run := r.takeWhile millerChar
    if run.isEmpty then none
    else
      match (r.dropWhile millerChar).head? with
      | some c => if c = ')' then some run else none
      | none => none
  | _ => none

/-- Separator for `inner.replace(",", " ").strip().split()`: commas are first
replaced by spaces, then `str.split()` splits on whitespace runs dropping
empties — equivalently, split on (whitespace or comma), dropping empties. -/
def isSepChar (c : Char) : Bool := isPySpace c || c = ','

def splitAux : List Char → List Char → List (List Char)
  | [], acc => if acc.isEmpty then [] else [acc.reverse]
  | c :: r, acc =>
    if isSepChar c then
      (if acc.isEmpty then splitAux r [] else acc.reverse :: splitAux r [])
    else splitAux r (c :: acc)

def splitTokens (l : List Char) : List (List Char) := splitAux l []

/-- Python `int(token)` restricted to the token alphabet reachable here
(digits and `-`; a leading `+` is also accepted by `int`).  Underscore grouping
cannot occur in these tokens because `_` is not in the class `[-\d,\s]`. -/
def pyInt (l : List Char) : Option Int :=
  match l with
  | '-' :: r => if !r.isEmpty && r.all Char.isDigit then some (-(natOfDigits r : Int)) else none
  | '+' :: r => if !r.isEmpty && r.all Char.isDigit then some ((natOfDigits r : Int)) else none
  | r => if !r.isEmpty && r.all Char.isDigit then some ((natOfDigits r : Int)) else none

/-- Matcher for `\b(\d{3})\b` at the head of `l` (with `pw` the word-character
status of the previous character): three digits, word boundary on both sides. -/
def d3At (pw : Bool) (l : List Char) : Option (Char × Char × Char) :=
  match l with
  | c1 :: c2 :: c3 :: r =>
    if !pw && c1.isDigit && c2.isDigit && c3.isDigit && !isWordHead r then
      some (c1, c2, c3)
    else none
  | _ => none

/-- The `m2 = re.search(r"\b(\d{3})\b", text)` fallback of `parse_miller`,
followed by the final default `(1, 0, 0)`. -/
def millerFallback (text : List Char) : Int × Int × Int :=
  match rscan d3At false text with
  | some (d1, d2, d3) => (digitValI d1, digitValI d2, digitValI d3)
  | none => (1, 0, 0)

/-- `parse_miller` from src/parsing.py lines 47-78.  Only the first
parenthesized group with content in `[-\d,\s]+` is examined; if it yields
neither three parseable signed integers nor a single 3-digit token, control
falls to the `\b\d{3}\b` search, and finally to the default `(1, 0, 0)`. -/
def parse_miller (text : List Char) : Int × Int × Int :=
  match rscan parenAt false text with
  | some inner =>
    match splitTokens inner with
    | [t1, t2, t3] =>
      match pyInt t1, pyInt t2, pyInt t3 with
      | some h, some k, some l => (h, k, l)
      | _, _, _ => millerFallback text
    | [t] =>
      match t with
      | [d1, d2, d3] =>
        if d1.isDigit && d2.isDigit && d3.isDigit then
          (digitValI d1, digitValI d2, digitValI d3)
        else millerFallback text
      | _ => millerFallback text
    | _ => millerFallback text
  | none => millerFallback text

/-! ### src/parsing.py : parse_layers -/

def layerPat : List Char := "layer".data

/-- `\s*` then a captured `\d+`: skip whitespace, take the digit run. -/
def digitsAfterWs (r : List Char) : List Char :=
  (r.dropWhile isPySpace).takeWhile Char.isDigit

/-- Matcher for `(\d+)\s*layers?` (IGNORECASE) at the head of `l`: maximal digit
run (shorter runs cannot match: the next char would be a digit, not `l`),
whitespace run, then the literal `layer` (the trailing `s?` imposes nothing). -/
def layersAt (_pw : Bool) (l : List Char) : Option Nat :=
  if (l.takeWhile Char.isDigit).isEmpty then none
  else
    match ciStarts layerPat ((l.dropWhile Char.isDigit).dropWhile isPySpace) with
    | some _ => some (natOfDigits (l.takeWhile Char.isDigit))
    | none => none

/-- After the literal `layer`, the optional greedy `s?` (IGNORECASE): consume a
leading `s`/`S` if present.  (The backtracking branch that leaves the `s` can
never succeed, since `s` is neither whitespace nor a digit.) -/
def layersTail (r : List Char) : List Char :=
  match r with
  | c :: t => if c = 's' ∨ c = 'S' then t else r
  | [] => r

/-- Matcher for `layers?\s*(\d+)` (IGNORECASE) at the head of `l`: literal
`layer`, optional `s`, whitespace, then a digit run. -/
def layersBAt (_pw : Bool) (l : List Char) : Option Nat :=
  match ciStarts layerPat l with
  | some r =>
    if (digitsAfterWs (layersTail r)).isEmpty then none
    else some (natOfDigits (digitsAfterWs (layersTail r)))
  | none => none

/-- `parse_layers` from src/parsing.py lines 81-95 (the `int()` calls on pure
digit runs never raise, so the defensive `except` arms are dead). -/
def parse_layers (text : List Char) : Nat :=
  match rscan layersAt false text with
  | some n => n
  | none =>
    match rscan layersBAt false text with
    | some n => n
    | none => 6

/-! ### src/parsing.py : parse_vacuum -/

def vacuumPat : List Char := "vacuum".data

/-- Reads the group `\d+(?:\.\d+)?` whose integer digits `ds` have already been
taken; `r` is the input after them.  The optional fraction is consumed exactly
when a `.` followed by at least one digit is present (backtracking cannot help:
if the fraction is skipped the next pattern character would have to match `.`,
and neither `\s` nor `Å`/`A`-class characters do).  Python converts the matched
text with `float(...)`; the value is modelled exactly in `ℚ`. -/
def vacNum (ds : List Char) (r : List Char) : ℚ × List Char :=
  match r with
  | '.' :: rr =>
    if (rr.takeWhile Char.isDigit).isEmpty then ((natOfDigits ds : ℚ), '.' :: rr)
    else ((natOfDigits ds : ℚ)
            + (natOfDigits (rr.takeWhile Char.isDigit) : ℚ) / (10 : ℚ) ^ (rr.takeWhile Char.isDigit).length,
          rr.dropWhile Char.isDigit)
  | _ => ((natOfDigits ds : ℚ), r)

/-- The alternative `(?:Å|A)` under IGNORECASE: `Å`, `å`, `A`, `a`. -/
def isAngstromA (c : Char) : Bool :=
  c = 'Å' || c = 'å' || c = 'A' || c = 'a'

/-- Matcher for `(\d+(?:\.\d+)?)\s*(?:Å|A)\s*vacuum` (IGNORECASE). -/
def vacAt (_pw : Bool) (l : List Char) : Option ℚ :=
  if (l.takeWhile Char.isDigit).isEmpty then none
  else
    match (vacNum (l.takeWhile Char.isDigit) (l.dropWhile Char.isDigit)).2.dropWhile isPySpace with
    | c :: r2 =>
      if isAngstromA c then
        match ciStarts vacuumPat (r2.dropWhile isPySpace) with
        | some _ => some (vacNum (l.takeWhile Char.isDigit) (l.dropWhile Char.isDigit)).1
        | none => none
      else none
    | [] => none

/-- Matcher for `vacuum\s*(\d+(?:\.\d+)?)` (IGNORECASE). -/
def vacBAt (_pw : Bool) (l : List Char) : Option ℚ :=
  match ciStarts vacuumPat l with
  | some r =>
    if ((r.dropWhile isPySpace).takeWhile Char.isDigit).isEmpty then none
    else some (vacNum ((r.dropWhile isPySpace).takeWhile Char.isDigit)
                      ((r.dropWhile isPySpace).dropWhile Char.isDigit)).1
  | none => none

/-- `parse_vacuum` from src/parsing.py lines 98-113. -/
def parse_vacuum (text : List Char) : ℚ :=
  match rscan vacAt false text with
  | some q => q
  | none =>
    match rscan vacBAt false text with
    | some q => q
    | none => 15

/-! ### src/parsing.py : parse_supercell -/

/-- The class `[x×]` under IGNORECASE: `x`, `X`, `×`. -/
def isXSep (c : Char) : Bool := c = 'x' || c = 'X' || c = '×'

/-- Matcher for `(\d+)\s*[x×]\s*(\d+)` (IGNORECASE). -/
def scAt (_pw : Bool) (l : List Char) : Option (Nat × Nat) :=
  if (l.takeWhile Char.isDigit).isEmpty then none
  else
    match (l.dropWhile Char.isDigit).dropWhile isPySpace with
    | c :: r =>
      if isXSep c then
        if (digitsAfterWs r).isEmpty then none
        else some (natOfDigits (l.takeWhile Char.isDigit), natOfDigits (digitsAfterWs r))
      else none
    | [] => none

def repeatPat : List Char := "repeat".data

/-- Matcher for `repeat\s+(\d+)\s+(\d+)` (IGNORECASE); both `\s+` require at
least one whitespace character. -/
def scBAt (_pw : Bool) (l : List Char) : Option (Nat × Nat) :=
  match ciStarts repeatPat l with
  | some r =>
    if (r.takeWhile isPySpace).isEmpty then none
    else if (digitsAfterWs r).isEmpty then none
    else if (((r.dropWhile isPySpace).dropWhile Char.isDigit).takeWhile isPySpace).isEmpty then none
    else if (digitsAfterWs ((r.dropWhile isPySpace).dropWhile Char.isDigit)).isEmpty then none
    else some (natOfDigits (digitsAfterWs r),
               natOfDigits (digitsAfterWs ((r.dropWhile isPySpace).dropWhile Char.isDigit)))
  | none => none

/-- `parse_supercell` from src/parsing.py lines 116-131. -/
def parse_supercell (text : List Char) : Nat × Nat :=
  match rscan scAt false text with
  | some p => p
  | none =>
    match rscan scBAt false text with
    | some p => p
    | none => (1, 1)

/-! ### src/parsing.py : parse_mp_id -/

/-- Matcher for `\bmp-\d+\b` (IGNORECASE): word boundary, `m`/`M`, `p`/`P`,
`-`, a maximal digit run (`\d+` greedy; shorter runs leave a digit, which is a
word character, so the trailing `\b` forces maximality), word boundary.  The
returned match is `m.group(0)`: the original characters of the text, so the
original case is preserved. -/
def mpAt (pw : Bool) (l : List Char) : Option (List Char) :=
  match l with
  | c1 :: c2 :: c3 :: r =>
    if !pw && (c1 = 'm' || c1 = 'M') && (c2 = 'p' || c2 = 'P') && c3 = '-' then
      if !(r.takeWhile Char.isDigit).isEmpty && !isWordHead (r.dropWhile Char.isDigit) then
        some (c1 :: c2 :: c3 :: r.takeWhile Char.isDigit)
      else none
    else none
  | _ => none

/-- `parse_mp_id` from src/parsing.py lines 136-138. -/
def parse_mp_id (text : List Char) : Option (List Char) :=
  rscan mpAt false text

/-! ### src/parsing.py : parse_formula

The formula validator delegates to the external `pymatgen` `Composition`
grammar (an external collaborator per the spec); it is abstracted as a boolean
parameter `v`, so every theorem below holds for every possible validator. -/

def STOPWORDS : List (List Char) :=
  (["create", "make", "build", "a", "an", "the", "with", "and", "for", "surface",
    "slab", "supercell", "vacuum", "layers", "layer", "repeat", "of",
    "to"]).map String.data

/-- Matcher for `([A-Za-z][A-Za-z0-9]*)\s*\(`: a letter, a maximal alphanumeric
run (shorter runs leave an alphanumeric character where `\s*\(` must match),
optional whitespace, then `(`. -/
def bpAt (_pw : Bool) (l : List Char) : Option (List Char) :=
  match l with
  | c :: r =>
    if isAsciiLetter c then
      match ((r.dropWhile isAlnumPy).dropWhile isPySpace).head? with
      | some c2 => if c2 = '(' then some (c :: r.takeWhile isAlnumPy) else none
      | none => none
    else none
  | [] => none

/-- Matcher for one match of `\b[A-Za-z][A-Za-z0-9]*\b`: boundary before, a
letter, a maximal alphanumeric run, boundary after (if the character after the
maximal run is a word character, i.e. `_`, no shorter run can close with `\b`
either, so the position fails). -/
def wordAt (pw : Bool) (l : List Char) : Option (List Char) :=
  match l with
  | c :: r =>
    if !pw && isAsciiLetter c && !isWordHead (r.dropWhile isAlnumPy) then
      some (c :: r.takeWhile isAlnumPy)
    else none
  | [] => none

/-- `re.findall(r"\b[A-Za-z][A-Za-z0-9]*\b", text)`.  `findall` resumes after
each non-overlapping match; advancing one character at a time is equivalent
here, because every position strictly inside a matched token has a word
character before it, so `\b` fails there until the token is passed. -/
def words : Bool → List Char → List (List Char)
  | _, [] => []
  | pw, c :: rest =>
    match wordAt pw (c :: rest) with
    | some tok => tok :: words true rest
    | none => words (isWordChar c) rest

def firstUpper (t : List Char) : Bool :=
  match t with
  | c :: _ => c.isUpper
  | [] => false

/-- The token scan of `parse_formula`: skip stopwords, tokens not starting with
an uppercase letter, and tokens longer than 20 characters; return the first
remaining token accepted by the validator. -/
def firstValidFormula (v : List Char → Bool) : List (List Char) → Option (List Char)
  | [] => none
  | t :: ts =>
    if !(STOPWORDS.contains (lowerL t)) && firstUpper t && t.length ≤ 20 && v t then some t
    else firstValidFormula v ts

/-- `parse_formula` from src/parsing.py lines 150-178, with the pymatgen
`Composition` validity check abstracted as `v`. -/
def parse_formula (v : List Char → Bool) (text : List Char) : Option (List Char) :=
  match rscan bpAt false text with
  | some tok =>
    if !(STOPWORDS.contains (lowerL tok)) && v tok then some tok
    else firstValidFormula v (words false text)
  | none => firstValidFormula v (words false text)

/-! ### src/parsing.py : QueryParams and parse_query -/

structure QueryParams where
  mp_id : Option (List Char)
  formula : Option (List Char)
  miller : Int × Int × Int
  layers : Nat
  vacuum : ℚ
  supercell : Nat × Nat
deriving DecidableEq

/-- Python truthiness of an optional string: `None` and `""` are falsy. -/
def pyTruthy (o : Option (List Char)) : Bool :=
  match o with
  | none => false
  | some s => !s.isEmpty

/-- `parse_query` from src/parsing.py lines 181-199: `formula = None if mp_id
else parse_formula(query)` uses Python truthiness of the matched string. -/
def parse_query (v : List Char → Bool) (query : List Char) : QueryParams :=
  let mp := parse_mp_id query
  { mp_id := mp
    formula := if pyTruthy mp then none else parse_formula v query
    miller := parse_miller query
    layers := parse_layers query
    vacuum := parse_vacuum query
    supercell := parse_supercell query }

/-! ### src/agent.py : name construction -/

/-- Python `round()` on to-integer rounding: round-half-to-even (banker's
rounding), as used by `int(round(params.vacuum))`. -/
def pyRound (q : ℚ) : Int :=
  if q - (⌊q⌋ : ℚ) < 1/2 then ⌊q⌋
  else if 1/2 < q - (⌊q⌋ : ℚ) then ⌊q⌋ + 1
  else if Even ⌊q⌋ then ⌊q⌋ else ⌊q⌋ + 1

/-- One character under the chain of `str.replace` calls of `_sanitize_name`:
`/` and `\` become `-`, `Å` becomes `A`. -/
def sanitizeMap (c : Char) : Char :=
  if c = '/' then '-' else if c = '\\' then '-' else if c = 'Å' then 'A' else c

/-- `_sanitize_name` from src/agent.py lines 35-40.  The four sequential
single-character `str.replace` calls (remove spaces, `/`→`-`, `\`→`-`,
`Å`→`A`) commute into one filter followed by one map, because no replacement
output (`-`, `A`) is a later pattern. -/
def sanitize_name (s : List Char) : List Char :=
  (s.filter (fun c => !(c = ' '))).map sanitizeMap

/-- The inner `fmt` of `_hkl_to_str`: negative components print as `m` followed
by the absolute value; `str(x)` and Lean's `toString` agree on integers. -/
def hklfmt (x : Int) : List Char :=
  if x < 0 then 'm' :: (toString x.natAbs).data else (toString x).data

/-- `_hkl_to_str` from src/agent.py lines 43-48. -/
def hkl_to_str (hkl : Int × Int × Int) : List Char :=
  hklfmt hkl.1 ++ '_' :: hklfmt hkl.2.1 ++ '_' :: hklfmt hkl.2.2

def hklTag : List Char := "_hkl".data
def lTag : List Char := "_L".data
def vTag : List Char := "_V".data
def sTag : List Char := "_S".data
def xTag : List Char := "x".data

/-- The base-name construction of `SlabAgent.run`, src/agent.py lines 128-130:
the f-string `f"{id_or_formula}_hkl{...}_L{...}_V{int(round(vacuum))}_S{nx}x{ny}"`
passed through `_sanitize_name`. -/
def base_name (idf : List Char) (miller : Int × Int × Int) (layers : Nat)
    (vacuum : ℚ) (nx ny : Nat) : List Char :=
  sanitize_name (idf ++ hklTag ++ hkl_to_str miller ++ lTag ++ (toString layers).data
    ++ vTag ++ (toString (pyRound vacuum)).data ++ sTag ++ (toString nx).data
    ++ xTag ++ (toString ny).data)

def defaultMaterialName : List Char := "material".data

/-- `id_or_formula = mp_id or (formula or "material")` from src/agent.py line
127 (Python `or` returns the first truthy operand). -/
def idOrFormula (mp_id formula : Option (List Char)) : List Char :=
  if pyTruthy mp_id then mp_id.getD []
  else if pyTruthy formula then formula.getD []
  else defaultMaterialName

/-! ### src/agent.py : structure-resolution dispatch -/

/-- Which external structure-resolution collaborator `SlabAgent.run` invokes. -/
inductive ResolvePath where
  | byId : List Char → ResolvePath
  | byFormula : List Char → ResolvePath
deriving DecidableEq

def noMaterialMsg : List Char :=
  "Could not determine a material from the query. Please include a chemical formula (e.g., Si, SrTiO3) or an MP ID (e.g., mp-149).".data

/-- The material-dispatch step of `SlabAgent.run`, src/agent.py lines 62-82: if
both `mp_id` and `formula` are falsy, raise before any collaborator call; else
fetch by id if `mp_id` is truthy, otherwise search by formula.  The `.error`
result is produced before and instead of any resolution path, modelling that no
collaborator is invoked. -/
def resolveStep (p : QueryParams) : Except (List Char) ResolvePath :=
  if !pyTruthy p.mp_id && !pyTruthy p.formula then .error noMaterialMsg
  else if pyTruthy p.mp_id then .ok (.byId (p.mp_id.getD []))
  else .ok (.byFormula (p.formula.getD []))

/-! ### src/agent.py : thickness-override parsing

Python `float(str)` is modelled by `pyFloat` on the finite-decimal grammar:
optional surrounding whitespace, optional sign, digits with optional fractional
part (or a leading-dot fraction), optional exponent; underscores are allowed
between digits as in Python 3.6+.  The `inf`/`infinity`/`nan` spellings accepted
by Python have no rational value and are outside this model; no claim touches
them.  Decimal-to-binary rounding of the float value is not modelled; every
concrete value compared in the claims is exactly representable. -/

/-- Digit run with Python underscore grouping: digits extended by `_` only when
a digit follows; stops before a trailing or doubled underscore.  Returns the
accumulated value, the number of digits read, and the rest. -/
def digitsUGo (acc n : Nat) : List Char → Nat × Nat × List Char
  | [] => (acc, n, [])
  | c :: r =>
    if c.isDigit then digitsUGo (acc * 10 + digitVal c) (n + 1) r
    else if c = '_' then
      match r with
      | d :: r2 => if d.isDigit then digitsUGo (acc * 10 + digitVal d) (n + 1) r2 else (acc, n, c :: r)
      | [] => (acc, n, [c])
    else (acc, n, c :: r)

def digitsU : List Char → Option (Nat × Nat × List Char)
  | c :: r => if c.isDigit then some (digitsUGo (digitVal c) 1 r) else none
  | [] => none

def pyFloatSign : List Char → Int × List Char
  | '+' :: r => (1, r)
  | '-' :: r => (-1, r)
  | r => (1, r)

def pyFloatMantissa (l : List Char) : Option (ℚ × List Char) :=
  match digitsU l with
  | some (ip, _, rest) =>
    match rest with
    | '.' :: r2 =>
      match digitsU r2 with
      | some (fp, nd, r3) => some ((ip : ℚ) + (fp : ℚ) / (10 : ℚ) ^ nd, r3)
      | none => some ((ip : ℚ), r2)
    | _ => some ((ip : ℚ), rest)
  | none =>
    match l with
    | '.' :: r2 =>
      match digitsU r2 with
      | some (fp, nd, r3) => some ((fp : ℚ) / (10 : ℚ) ^ nd, r3)
      | none => none
    | _ => none

def pyFloatExp (m : ℚ) : List Char → Option ℚ
  | [] => some m
  | c :: r =>
    if c = 'e' || c = 'E' then
      match pyFloatSign r with
      | (s, r2) =>
        match digitsU r2 with
        | some (e, _, r3) =>
          if r3.isEmpty then
            some (if s < 0 then m / (10 : ℚ) ^ e else m * (10 : ℚ) ^ e)
          else none
        | none => none
    else none

/-- Python `float(str)` on the finite-decimal grammar (see section comment). -/
def pyFloat (l : List Char) : Option ℚ :=
  match pyFloatSign (trimPy l) with
  | (s, r) =>
    match pyFloatMantissa r with
    | some (m, rest) =>
      match pyFloatExp m rest with
      | some q => some (if s < 0 then -q else q)
      | none => none
    | none => none

def thkErrPre : List Char :=
  "Could not parse --thickness value \x27".data

def thkErrSuf : List Char :=
  "\x27. Use numeric \xc5 (e.g., 7.5) or \x27<factor>d\x27 (e.g., 1.5d).".data

/-- The `ValueError` message of the thickness parser, naming the offending
original string (the spec's `ConfigurationError`). -/
def thkErrMsg (thickness : List Char) : List Char :=
  thkErrPre ++ thickness ++ thkErrSuf

/-- The thickness-override parsing of `SlabAgent.run`, src/agent.py lines
90-101: strip and lowercase; a trailing `d` selects the factor form
`max(0.01, factor * d_hkl)` (with `d_hkl` supplied by the resolved structure's
lattice, passed here as `dhkl`); otherwise the plain `float` form, unmodified;
any `float` failure raises the error naming the original value. -/
def effThickness (thickness : List Char) (dhkl : ℚ) : Except (List Char) ℚ :=
  let t := lowerL (trimPy thickness)
  if t.getLast? = some 'd' then
    match pyFloat t.dropLast with
    | some f => .ok (max (1/100 : ℚ) (f * dhkl))
    | none => .error (thkErrMsg thickness)
  else
    match pyFloat t with
    | some x => .ok x
    | none => .error (thkErrMsg thickness)

/-! ### src/tools/pmg_slab_thickness.py : input validation -/

def thkPosMsg : List Char := "thickness must be > 0 Angstrom.".data

def vacPosMsg : List Char := "vacuum must be > 0 Angstrom.".data

/-- The validation guards of `pmg_slab_with_thickness_to_ase`,
src/tools/pmg_slab_thickness.py lines 23-27, before any call into the external
`SlabGenerator` collaborator. -/
def pmg_slab_with_thickness_guard (thickness vacuum : ℚ) : Except (List Char) Unit :=
  if thickness ≤ 0 then .error thkPosMsg
  else if vacuum ≤ 0 then .error vacPosMsg
  else .ok ()

/-! ### src/tools/materials_project.py : get_structure_by_formula selection

The remote search is an external collaborator; what the repository itself
computes is the selection among the returned entries.  An entry is modelled by
its `material_id` and `energy_above_hull` fields (both may be absent, as
`_get` maps missing attributes to `None`) plus an opaque payload standing for
the structure object.  Python's `sorted` is a stable sort; it is embedded as a
stable insertion sort (`insortHull` inserts strictly after all entries with key
`≤` its own, so earlier input entries precede equal-keyed later ones — any two
stable sorts under the same total preorder produce the same list). -/

structure MPEntry where
  material_id : Option (List Char)
  energy_above_hull : Option ℚ
  structureId : Nat
deriving DecidableEq

/-- The sort key `float("inf") if _get(d, "energy_above_hull") is None else
_get(d, "energy_above_hull")`: a missing metric becomes `+∞`. -/
def hullKey (e : MPEntry) : WithTop ℚ :=
  match e.energy_above_hull with
  | none => ⊤
  | some q => (q : WithTop ℚ)

def insortHull (e : MPEntry) : List MPEntry → List MPEntry
  | [] => [e]
  | a :: t => if hullKey a < hullKey e then a :: insortHull e t else e :: a :: t

def pySortedByHull (l : List MPEntry) : List MPEntry :=
  l.foldr insortHull []

def noMaterialsPre : List Char := "No materials found for formula \x27".data

def noMaterialsSuf : List Char := "\x27".data

def noMaterialsMsg (formula : List Char) : List Char :=
  noMaterialsPre ++ formula ++ noMaterialsSuf

def noIdMsg : List Char :=
  "materials.summary.search did not return a material_id".data

/-- The selection logic of `get_structure_by_formula`,
src/tools/materials_project.py lines 102-130: fail on an empty result list,
sort by `hullKey`, take the first entry, and fail if it has no truthy
`material_id`.  (The sorted list is nonempty whenever `results` is, so the
middle `[]` arm is unreachable.) -/
def get_structure_by_formula_select (formula : List Char) (results : List MPEntry) :
    Except (List Char) MPEntry :=
  if results.isEmpty then .error (noMaterialsMsg formula)
  else
    match pySortedByHull results with
    | [] => .error (noMaterialsMsg formula)
    | top :: _ => if pyTruthy top.material_id then .ok top else .error noIdMsg

/-! ### Generic lemmas about the leftmost scan -/

theorem rscan_some_imp {α : Type} (f : Bool → List Char → Option α) (P : α → Prop)
    (hf : ∀ pw l x, f pw l = some x → P x) :
    ∀ l pw x, rscan f pw l = some x → P x := by
  intro l
  induction l with
  | nil => intro pw x h; exact hf pw [] x h
  | cons c rest ih =>
    intro pw x h
    rw [rscan] at h
    cases hf0 : f pw (c :: rest) with
    | some y => rw [hf0] at h; cases h; exact hf pw (c :: rest) x hf0
    | none => rw [hf0] at h; exact ih (isWordChar c) x h

theorem rscan_eq_none {α : Type} (f : Bool → List Char → Option α) :
    ∀ l pw, (∀ pw' l', l' <:+ l → f pw' l' = none) → rscan f pw l = none := by
  intro l
  induction l with
  | nil => intro pw h; rw [rscan]; exact h pw [] ⟨[], rfl⟩
  | cons c rest ih =>
    intro pw h
    rw [rscan, h pw (c :: rest) ⟨[], rfl⟩]
    exact ih (isWordChar c) (fun pw' l' hs => h pw' l' (hs.trans (List.suffix_cons c rest)))

theorem prevWordAfter_cons (pw : Bool) (c : Char) (a : List Char) :
    prevWordAfter pw (c :: a) = prevWordAfter (isWordChar c) a := by
  cases a with
  | nil => rfl
  | cons d t =>
    simp only [prevWordAfter, List.getLast?_cons_cons]
    cases h : (d :: t).getLast? with
    | some y => rfl
    | none => simp at h

theorem rscan_isSome_of {α : Type} (f : Bool → List Char → Option α) :
    ∀ (a : List Char) (rest : List Char) (pw : Bool),
      (f (prevWordAfter pw a) rest).isSome = true →
      (rscan f pw (a ++ rest)).isSome = true := by
  intro a
  induction a with
  | nil =>
    intro rest pw h
    simp only [prevWordAfter, List.getLast?_nil] at h
    cases rest with
    | nil => rw [List.nil_append, rscan]; exact h
    | cons c r =>
      rw [List.nil_append, rscan]
      cases hf0 : f pw (c :: r) with
      | some y => simp
      | none => rw [hf0] at h; simp at h
  | cons c a' ih =>
    intro rest pw h
    rw [List.cons_append, rscan]
    cases hf0 : f pw (c :: (a' ++ rest)) with
    | some y => simp
    | none =>
      rw [prevWordAfter_cons] at h
      exact ih rest (isWordChar c) h

theorem suffix_longer_decomp {α : Type} :
    ∀ (a l' rest : List α), l' <:+ a ++ rest → rest.length < l'.length →
      ∃ a₂, a₂ <:+ a ∧ a₂ ≠ [] ∧ l' = a₂ ++ rest := by
  intro a
  induction a with
  | nil =>
    intro l' rest hs hl
    have := hs.length_le
    simp only [List.nil_append] at this
    omega
  | cons c a' ih =>
    intro l' rest hs hl
    rw [List.cons_append, List.suffix_cons_iff] at hs
    cases hs with
    | inl h =>
      exact ⟨c :: a', List.suffix_refl _, by simp, by rw [h, List.cons_append]⟩
    | inr h =>
      obtain ⟨a₂, h1, h2, h3⟩ := ih l' rest h hl
      exact ⟨a₂, h1.trans (List.suffix_cons c a'), h2, h3⟩

theorem rscan_eq_of {α : Type} (f : Bool → List Char → Option α) :
    ∀ (a : List Char) (rest : List Char) (pw : Bool) (x : α),
      (∀ pw' l', l' <:+ a ++ rest → rest.length < l'.length → f pw' l' = none) →
      f (prevWordAfter pw a) rest = some x →
      rscan f pw (a ++ rest) = some x := by
  intro a
  induction a with
  | nil =>
    intro rest pw x _ hit
    simp only [prevWordAfter, List.getLast?_nil] at hit
    cases rest with
    | nil => rw [List.nil_append, rscan]; exact hit
    | cons c r => rw [List.nil_append, rscan, hit]
  | cons c a' ih =>
    intro rest pw x hfail hit
    rw [List.cons_append, rscan]
    have h0 : f pw (c :: (a' ++ rest)) = none := by
      apply hfail pw (c :: (a' ++ rest)) (List.suffix_refl _)
      simp only [List.length_cons, List.length_append]
      omega
    rw [h0]
    rw [prevWordAfter_cons] at hit
    exact ih rest (isWordChar c) x
      (fun pw' l' hs hl => hfail pw' l' (hs.trans (List.suffix_cons c (a' ++ rest))) hl) hit

theorem rscan_to_suffix {α : Type} (f : Bool → List Char → Option α) :
    ∀ l pw x, rscan f pw l = some x →
      ∃ pw' l', l' <:+ l ∧ f pw' l' = some x := by
  intro l
  induction l with
  | nil => intro pw x h; rw [rscan] at h; exact ⟨pw, [], ⟨[], rfl⟩, h⟩
  | cons c rest ih =>
    intro pw x h
    rw [rscan] at h
    cases hf0 : f pw (c :: rest) with
    | some y => rw [hf0] at h; cases h; exact ⟨pw, c :: rest, List.suffix_refl _, hf0⟩
    | none =>
      rw [hf0] at h
      obtain ⟨pw', l', hs, hf⟩ := ih (isWordChar c) x h
      exact ⟨pw', l', hs.trans (List.suffix_cons c rest), hf⟩

/-! ### takeWhile / dropWhile across an append -/

theorem takeWhile_append_all {p : Char → Bool} :
    ∀ (xs ys : List Char), (∀ c ∈ xs, p c = true) →
      (∀ c, ys.head? = some c → p c = false) →
      (xs ++ ys).takeWhile p = xs ∧ (xs ++ ys).dropWhile p = ys := by
  intro xs
  induction xs with
  | nil =>
    intro ys _ hys
    cases ys with
    | nil => simp [List.takeWhile, List.dropWhile]
    | cons c r =>
      have := hys c rfl
      simp [List.takeWhile, List.dropWhile, this]
  | cons c xs' ih =>
    intro ys hxs hys
    have hc : p c = true := hxs c (List.mem_cons_self c xs')
    have := ih ys (fun d hd => hxs d (List.mem_cons_of_mem c hd)) hys
    simp [List.takeWhile_cons, List.dropWhile_cons, hc, this.1, this.2]

/-! ### Character-class facts -/

theorem digit_isWordChar (c : Char) (h : c.isDigit = true) : isWordChar c = true := by
  simp [isWordChar, isAlnumPy, h]

theorem digit_not_sep (c : Char) (h : c.isDigit = true) : isSepChar c = false := by
  have hn : c ≠ ' ' ∧ c ≠ '\t' ∧ c ≠ '\n' ∧ c ≠ '\r' ∧ c ≠ '\x0b' ∧ c ≠ '\x0c' ∧ c ≠ ',' := by
    refine ⟨?_, ?_, ?_, ?_, ?_, ?_, ?_⟩ <;> rintro rfl <;> exact absurd h (by decide)
  obtain ⟨h1, h2, h3, h4, h5, h6, h7⟩ := hn
  simp [isSepChar, isPySpace, h1, h2, h3, h4, h5, h6, h7]

theorem digit_millerChar (c : Char) (h : c.isDigit = true) : millerChar c = true := by
  simp [millerChar, h]

theorem not_wordHead_not_digit (l : List Char) (h : isWordHead l = false) :
    ∀ c, l.head? = some c → c.isDigit = false := by
  intro c hc
  by_contra hd
  rw [Bool.not_eq_false] at hd
  simp only [isWordHead, hc] at h
  rw [digit_isWordChar c hd] at h
  exact Bool.noConfusion h

theorem takeWhile_nil_of_head {p : Char → Bool} (l : List Char)
    (h : ∀ c, l.head? = some c → p c = false) : l.takeWhile p = [] := by
  cases l with
  | nil => rfl
  | cons c r => simp [List.takeWhile_cons, h c rfl]

theorem head_digit_mem (l : List Char) (h : (l.takeWhile Char.isDigit).isEmpty = false) :
    ∃ c ∈ l, c.isDigit = true := by
  cases l with
  | nil => simp at h
  | cons c r =>
    by_cases hc : c.isDigit = true
    · exact ⟨c, List.mem_cons_self c r, hc⟩
    · rw [Bool.not_eq_true] at hc
      simp [List.takeWhile_cons, hc] at h

theorem ciStarts_suffix : ∀ (pat l r : List Char), ciStarts pat l = some r → r <:+ l := by
  intro pat
  induction pat with
  | nil => intro l r h; rw [ciStarts] at h; cases h; exact List.suffix_refl _
  | cons p ps ih =>
    intro l r h
    cases l with
    | nil => rw [ciStarts] at h; cases h
    | cons c cs =>
      rw [ciStarts] at h
      split at h
      · exact (ih cs r h).trans (List.suffix_cons c cs)
      · cases h

/-! ### Shape lemmas for the matchers -/

theorem takeWhile_pfx {p : Char → Bool} (l : List Char) : l.takeWhile p <+: l :=
  ⟨l.dropWhile p, List.takeWhile_append_dropWhile p l⟩

theorem mpAt_ne_nil : ∀ pw l s, mpAt pw l = some s → s ≠ [] := by
  intro pw l s h
  unfold mpAt at h
  repeat' split at h
  all_goals first
    | exact Option.noConfusion h
    | (rw [Option.some_inj] at h; rw [← h]; simp)

theorem mpAt_pfx : ∀ pw l s, mpAt pw l = some s → s <+: l := by
  intro pw l s h
  unfold mpAt at h
  repeat' split at h
  all_goals first
    | exact Option.noConfusion h
    | (rw [Option.some_inj] at h; rw [← h];
       exact List.cons_prefix_cons.mpr ⟨rfl, List.cons_prefix_cons.mpr ⟨rfl,
         List.cons_prefix_cons.mpr ⟨rfl, takeWhile_pfx _⟩⟩⟩)

theorem parse_mp_id_ne_nil (text s : List Char) (h : parse_mp_id text = some s) : s ≠ [] :=
  rscan_some_imp mpAt (fun x => x ≠ []) (fun pw l x hx => mpAt_ne_nil pw l x hx) text false s h

theorem parse_mp_id_infix (text s : List Char) (h : parse_mp_id text = some s) : s <:+: text := by
  obtain ⟨pw', l', hs, hf⟩ := rscan_to_suffix mpAt text false s h
  obtain ⟨w, hw⟩ := mpAt_pfx pw' l' s hf
  obtain ⟨u, hu⟩ := hs
  exact ⟨u, w, by rw [List.append_assoc, hw, hu]⟩

theorem bpAt_ne_nil : ∀ pw l s, bpAt pw l = some s → s ≠ [] := by
  intro pw l s h
  unfold bpAt at h
  repeat' split at h
  all_goals first
    | exact Option.noConfusion h
    | (rw [Option.some_inj] at h; rw [← h]; simp)

theorem wordAt_ne_nil : ∀ pw l s, wordAt pw l = some s → s ≠ [] := by
  intro pw l s h
  unfold wordAt at h
  repeat' split at h
  all_goals first
    | exact Option.noConfusion h
    | (rw [Option.some_inj] at h; rw [← h]; simp)

theorem words_ne_nil : ∀ (l : List Char) (pw : Bool) (t : List Char), t ∈ words pw l → t ≠ [] := by
  intro l
  induction l with
  | nil => intro pw t h; rw [words] at h; cases h
  | cons c rest ih =>
    intro pw t h
    rw [words] at h
    cases hw : wordAt pw (c :: rest) with
    | some tok =>
      rw [hw] at h
      cases h with
      | head => exact wordAt_ne_nil pw (c :: rest) t hw
      | tail _ h2 => exact ih true t h2
    | none =>
      rw [hw] at h
      exact ih (isWordChar c) t h

theorem firstValidFormula_mem (v : List Char → Bool) :
    ∀ (ts : List (List Char)) (t : List Char), firstValidFormula v ts = some t → t ∈ ts := by
  intro ts
  induction ts with
  | nil => intro t h; rw [firstValidFormula] at h; cases h
  | cons t0 ts' ih =>
    intro t h
    rw [firstValidFormula] at h
    split at h
    · cases h; exact List.mem_cons_self t0 ts'
    · exact List.mem_cons_of_mem t0 (ih t h)

theorem parse_formula_ne_nil (v : List Char → Bool) (text s : List Char)
    (h : parse_formula v text = some s) : s ≠ [] := by
  have hgen : firstValidFormula v (words false text) = some s → s ≠ [] := fun hg =>
    words_ne_nil text false s (firstValidFormula_mem v (words false text) s hg)
  unfold parse_formula at h
  split at h
  · rename_i tok hbp
    split at h
    · cases h
      exact rscan_some_imp bpAt (fun x => x ≠ [])
        (fun pw l x hx => bpAt_ne_nil pw l x hx) text false s hbp
    · exact hgen h
  · exact hgen h

/-! ### Membership transport helpers -/

theorem head?_mem' {l : List Char} {c : Char} (h : l.head? = some c) : c ∈ l := by
  cases l with
  | nil => cases h
  | cons a r =>
    rw [List.head?_cons, Option.some_inj] at h
    rw [← h]
    exact List.mem_cons_self a r

theorem dropWhile_mem {p : Char → Bool} {l : List Char} {c : Char}
    (h : c ∈ l.dropWhile p) : c ∈ l := by
  have : l.dropWhile p <:+ l := ⟨l.takeWhile p, List.takeWhile_append_dropWhile p l⟩
  exact this.subset h

theorem takeWhile_mem {p : Char → Bool} {l : List Char} {c : Char}
    (h : c ∈ l.takeWhile p) : c ∈ l :=
  (takeWhile_pfx l).subset h

theorem layersTail_mem {r : List Char} {c : Char} (h : c ∈ layersTail r) : c ∈ r := by
  cases r with
  | nil => exact h
  | cons c0 t =>
    simp only [layersTail] at h
    by_cases h0 : c0 = 's' ∨ c0 = 'S'
    · rw [if_pos h0] at h
      exact List.mem_cons_of_mem c0 h
    · rw [if_neg h0] at h
      exact h

/-! ### No-digit lemmas: every numeric matcher fails on digit-free text -/

theorem takeWhile_isDigit_nil (l : List Char) (hnd : ∀ c ∈ l, c.isDigit = false) :
    l.takeWhile Char.isDigit = [] :=
  takeWhile_nil_of_head l (fun c hc => hnd c (head?_mem' hc))

theorem digitsAfterWs_nil (l : List Char) (hnd : ∀ c ∈ l, c.isDigit = false) :
    digitsAfterWs l = [] := by
  unfold digitsAfterWs
  exact takeWhile_isDigit_nil _ (fun c hc => hnd c (dropWhile_mem hc))

theorem layersAt_none (pw : Bool) (l : List Char) (hnd : ∀ c ∈ l, c.isDigit = false) :
    layersAt pw l = none := by
  simp [layersAt, takeWhile_isDigit_nil l hnd]

theorem layersBAt_none (pw : Bool) (l : List Char) (hnd : ∀ c ∈ l, c.isDigit = false) :
    layersBAt pw l = none := by
  unfold layersBAt
  cases hci : ciStarts layerPat l with
  | none => rfl
  | some r =>
    have hr : ∀ c ∈ layersTail r, c.isDigit = false := fun c hc =>
      hnd c ((ciStarts_suffix layerPat l r hci).subset (layersTail_mem hc))
    simp [digitsAfterWs_nil _ hr]

theorem vacAt_none (pw : Bool) (l : List Char) (hnd : ∀ c ∈ l, c.isDigit = false) :
    vacAt pw l = none := by
  simp [vacAt, takeWhile_isDigit_nil l hnd]

theorem vacBAt_none (pw : Bool) (l : List Char) (hnd : ∀ c ∈ l, c.isDigit = false) :
    vacBAt pw l = none := by
  unfold vacBAt
  cases hci : ciStarts vacuumPat l with
  | none => rfl
  | some r =>
    have hr : ∀ c ∈ r.dropWhile isPySpace, c.isDigit = false := fun c hc =>
      hnd c ((ciStarts_suffix vacuumPat l r hci).subset (dropWhile_mem hc))
    simp [takeWhile_isDigit_nil _ hr]

theorem scAt_none (pw : Bool) (l : List Char) (hnd : ∀ c ∈ l, c.isDigit = false) :
    scAt pw l = none := by
  simp [scAt, takeWhile_isDigit_nil l hnd]

theorem scBAt_none (pw : Bool) (l : List Char) (hnd : ∀ c ∈ l, c.isDigit = false) :
    scBAt pw l = none := by
  unfold scBAt
  cases hci : ciStarts repeatPat l with
  | none => rfl
  | some r =>
    have hr : ∀ c ∈ r, c.isDigit = false := fun c hc =>
      hnd c ((ciStarts_suffix repeatPat l r hci).subset hc)
    have h1 : digitsAfterWs r = [] := digitsAfterWs_nil _ hr
    simp only [h1, List.isEmpty_nil]
    split
    · rfl
    · simp

/-! ### Defaults on digit-free text -/

theorem parse_layers_default (text : List Char) (hnd : ∀ c ∈ text, c.isDigit = false) :
    parse_layers text = 6 := by
  have hA : rscan layersAt false text = none :=
    rscan_eq_none layersAt text false
      (fun pw' l' hs => layersAt_none pw' l' (fun c hc => hnd c (hs.subset hc)))
  have hB : rscan layersBAt false text = none :=
    rscan_eq_none layersBAt text false
      (fun pw' l' hs => layersBAt_none pw' l' (fun c hc => hnd c (hs.subset hc)))
  simp [parse_layers, hA, hB]

theorem parse_vacuum_default (text : List Char) (hnd : ∀ c ∈ text, c.isDigit = false) :
    parse_vacuum text = 15 := by
  have hA : rscan vacAt false text = none :=
    rscan_eq_none vacAt text false
      (fun pw' l' hs => vacAt_none pw' l' (fun c hc => hnd c (hs.subset hc)))
  have hB : rscan vacBAt false text = none :=
    rscan_eq_none vacBAt text false
      (fun pw' l' hs => vacBAt_none pw' l' (fun c hc => hnd c (hs.subset hc)))
  simp [parse_vacuum, hA, hB]

theorem parse_supercell_default (text : List Char) (hnd : ∀ c ∈ text, c.isDigit = false) :
    parse_supercell text = (1, 1) := by
  have hA : rscan scAt false text = none :=
    rscan_eq_none scAt text false
      (fun pw' l' hs => scAt_none pw' l' (fun c hc => hnd c (hs.subset hc)))
  have hB : rscan scBAt false text = none :=
    rscan_eq_none scBAt text false
      (fun pw' l' hs => scBAt_none pw' l' (fun c hc => hnd c (hs.subset hc)))
  simp [parse_supercell, hA, hB]

/-! ### Nonnegativity of parsed vacuum values -/

theorem vacNum_nonneg (ds r : List Char) : 0 ≤ (vacNum ds r).1 := by
  unfold vacNum
  split
  · split
    · simp
    · simp only []
      positivity
  · simp

theorem vacAt_nonneg : ∀ pw l q, vacAt pw l = some q → 0 ≤ q := by
  intro pw l q h
  unfold vacAt at h
  repeat' split at h
  all_goals first
    | exact Option.noConfusion h
    | (rw [Option.some_inj] at h; rw [← h]; exact vacNum_nonneg _ _)

theorem vacBAt_nonneg : ∀ pw l q, vacBAt pw l = some q → 0 ≤ q := by
  intro pw l q h
  unfold vacBAt at h
  repeat' split at h
  all_goals first
    | exact Option.noConfusion h
    | (rw [Option.some_inj] at h; rw [← h]; exact vacNum_nonneg _ _)

theorem parse_vacuum_nonneg (text : List Char) : 0 ≤ parse_vacuum text := by
  unfold parse_vacuum
  cases hA : rscan vacAt false text with
  | some q => exact rscan_some_imp vacAt (0 ≤ ·) (fun pw l x hx => vacAt_nonneg pw l x hx) text false q hA
  | none =>
    cases hB : rscan vacBAt false text with
    | some q => exact rscan_some_imp vacBAt (0 ≤ ·) (fun pw l x hx => vacBAt_nonneg pw l x hx) text false q hB
    | none => norm_num

/-! ### splitTokens on separator-free runs -/

theorem splitAux_no_sep : ∀ (l acc : List Char), (∀ c ∈ l, isSepChar c = false) →
    splitAux l acc = if acc = [] ∧ l = [] then [] else [acc.reverse ++ l] := by
  intro l
  induction l with
  | nil =>
    intro acc _
    rw [splitAux]
    cases acc with
    | nil => simp
    | cons a t => simp
  | cons c r ih =>
    intro acc h
    rw [splitAux]
    have hc : isSepChar c = false := h c (List.mem_cons_self c r)
    rw [hc]
    simp only [Bool.false_eq_true, if_false]
    rw [ih (c :: acc) (fun d hd => h d (List.mem_cons_of_mem c hd))]
    simp

theorem splitTokens_no_sep (l : List Char) (hne : l ≠ [])
    (h : ∀ c ∈ l, isSepChar c = false) : splitTokens l = [l] := by
  unfold splitTokens
  rw [splitAux_no_sep l [] h]
  simp [hne]

/-! ### Head of the stable sort: the leftmost entry with minimal key -/

theorem insortHull_ne_nil (e : MPEntry) (l : List MPEntry) : insortHull e l ≠ [] := by
  cases l with
  | nil => simp [insortHull]
  | cons a t =>
    rw [insortHull]
    split <;> simp

theorem pySortedByHull_nil (l : List MPEntry) (h : pySortedByHull l = []) : l = [] := by
  cases l with
  | nil => rfl
  | cons a t => exact absurd h (insortHull_ne_nil a (pySortedByHull t))

theorem sorted_head_leftmost_min :
    ∀ (l : List MPEntry) (x : MPEntry) (t : List MPEntry), pySortedByHull l = x :: t →
      (∃ l₁ l₂, l = l₁ ++ x :: l₂ ∧ ∀ e ∈ l₁, hullKey x < hullKey e) ∧
      (∀ e ∈ l, hullKey x ≤ hullKey e) := by
  intro l
  induction l with
  | nil => intro x t h; cases h
  | cons a r ih =>
    intro x t h
    have hstep : pySortedByHull (a :: r) = insortHull a (pySortedByHull r) := rfl
    rw [hstep] at h
    cases hr : pySortedByHull r with
    | nil =>
      have hre : r = [] := pySortedByHull_nil r hr
      subst hre
      rw [hr, insortHull] at h
      rw [List.cons.injEq] at h
      obtain ⟨hxa, -⟩ := h
      subst hxa
      refine ⟨⟨[], [], rfl, by simp⟩, ?_⟩
      intro e he
      rw [List.mem_singleton] at he
      rw [he]
    | cons y t' =>
      rw [hr, insortHull] at h
      obtain ⟨⟨r₁, r₂, hdec, hlt⟩, hmin⟩ := ih y t' hr
      split at h
      · rename_i hyx
        rw [List.cons.injEq] at h
        obtain ⟨hxy, -⟩ := h
        subst hxy
        refine ⟨⟨a :: r₁, r₂, ?_, ?_⟩, ?_⟩
        · rw [hdec]
          rfl
        · intro e he
          rw [List.mem_cons] at he
          cases he with
          | inl h1 => rw [h1]; exact hyx
          | inr h2 => exact hlt e h2
        · intro e he
          rw [List.mem_cons] at he
          cases he with
          | inl h1 => rw [h1]; exact le_of_lt hyx
          | inr h2 => exact hmin e h2
      · rename_i hyx
        rw [List.cons.injEq] at h
        obtain ⟨hxa, -⟩ := h
        subst hxa
        have hay : hullKey a ≤ hullKey y := le_of_not_lt hyx
        refine ⟨⟨[], r, rfl, by simp⟩, ?_⟩
        intro e he
        rw [List.mem_cons] at he
        cases he with
        | inl h1 => rw [h1]
        | inr h2 => exact le_trans hay (hmin e h2)

/-! ### Rounding is to a nearest integer -/

theorem pyRound_near (q : ℚ) : |((pyRound q : ℤ) : ℚ) - q| ≤ 1/2 := by
  have h0 : (0 : ℚ) ≤ q - (⌊q⌋ : ℚ) := by
    have := Int.floor_le q
    linarith
  have h1 : q - (⌊q⌋ : ℚ) < 1 := by
    have := Int.lt_floor_add_one q
    linarith
  unfold pyRound
  split
  · rename_i h
    rw [abs_le]
    constructor <;> linarith
  · rename_i h
    push_neg at h
    split
    · rename_i h2
      rw [abs_le]
      push_cast
      constructor <;> linarith
    · rename_i h2
      push_neg at h2
      have hhalf : q - (⌊q⌋ : ℚ) = 1/2 := le_antisymm h2 h
      split
      · rw [abs_le]
        constructor <;> linarith
      · rw [abs_le]
        push_cast
        constructor <;> linarith

/-! ### Sanitized names contain no forbidden characters -/

theorem sanitize_name_no_bad (s : List Char) :
    ∀ c ∈ sanitize_name s, c ≠ ' ' ∧ c ≠ '/' ∧ c ≠ '\\' ∧ c ≠ 'Å' := by
  intro c hc
  unfold sanitize_name at hc
  rw [List.mem_map] at hc
  obtain ⟨c0, hc0, hmap⟩ := hc
  rw [List.mem_filter] at hc0
  obtain ⟨-, hnsp⟩ := hc0
  rw [Bool.not_eq_eq_eq_not, Bool.not_true, decide_eq_false_iff_not] at hnsp
  rw [← hmap]
  unfold sanitizeMap
  split
  · exact ⟨by decide, by decide, by decide, by decide⟩
  · split
    · exact ⟨by decide, by decide, by decide, by decide⟩
    · split
      · exact ⟨by decide, by decide, by decide, by decide⟩
      · rename_i hs1 hs2 hs3
        exact ⟨hnsp, hs1, hs2, hs3⟩

/-! ### parse_miller helper lemmas -/

theorem digit_not_lparen (c : Char) (h : c.isDigit = true) : c ≠ '(' := by
  rintro rfl
  exact absurd h (by decide)

theorem parenAt_none_of_head (pw : Bool) (c : Char) (r : List Char) (hc : c ≠ '(') :
    parenAt pw (c :: r) = none := by
  unfold parenAt
  split
  · rename_i r' heq
    rw [List.cons.injEq] at heq
    exact absurd heq.1 hc
  · rfl

theorem d3At_none_of_head (pw : Bool) (c : Char) (r : List Char) (hc : c.isDigit = false) :
    d3At pw (c :: r) = none := by
  unfold d3At
  split
  · rename_i c1 c2 c3 r' heq
    rw [List.cons.injEq] at heq
    obtain ⟨h1, -⟩ := heq
    rw [← h1, hc]
    simp
  · rfl

theorem splitTokens_nil_ne (t1 t2 t3 : List Char) (h : splitTokens [] = [t1, t2, t3]) : False := by
  simp [splitTokens, splitAux] at h

/-- The first parenthesized group is found by the scan: if `a` contains no `(`,
the group `(inner)` with class-only content is what `re.search` returns. -/
theorem parenScan_finds (a inner b : List Char)
    (ha : ∀ c ∈ a, c ≠ '(') (hin : ∀ c ∈ inner, millerChar c = true) (hne : inner ≠ []) :
    rscan parenAt false (a ++ '(' :: (inner ++ ')' :: b)) = some inner := by
  apply rscan_eq_of parenAt a ('(' :: (inner ++ ')' :: b)) false inner
  · intro pw' l' hs hl
    obtain ⟨a₂, ha₂s, ha₂ne, hdec⟩ := suffix_longer_decomp a l' ('(' :: (inner ++ ')' :: b)) hs hl
    subst hdec
    cases a₂ with
    | nil => exact absurd rfl ha₂ne
    | cons c0 a₃ =>
      rw [List.cons_append]
      exact parenAt_none_of_head pw' c0 _ (ha c0 (ha₂s.subset (List.mem_cons_self c0 a₃)))
  · obtain ⟨htake, hdrop⟩ := takeWhile_append_all (p := millerChar) inner (')' :: b) hin
      (fun c hc => by
        rw [List.head?_cons, Option.some_inj] at hc
        rw [← hc]
        decide)
    show parenAt (prevWordAfter false a) ('(' :: (inner ++ ')' :: b)) = some inner
    simp only [parenAt]
    rw [htake, hdrop]
    simp [hne]

/-- Priority (a): if the first parenthesized class-content group splits into
three signed integers, `parse_miller` returns exactly that triple. -/
theorem parse_miller_first_paren_triple (a inner b t1 t2 t3 : List Char) (h k l : ℤ)
    (ha : ∀ c ∈ a, c ≠ '(') (hin : ∀ c ∈ inner, millerChar c = true)
    (hsplit : splitTokens inner = [t1, t2, t3])
    (h1 : pyInt t1 = some h) (h2 : pyInt t2 = some k) (h3 : pyInt t3 = some l) :
    parse_miller (a ++ '(' :: (inner ++ ')' :: b)) = (h, k, l) := by
  have hne : inner ≠ [] := by
    intro he
    rw [he] at hsplit
    exact splitTokens_nil_ne t1 t2 t3 hsplit
  have hscan := parenScan_finds a inner b ha hin hne
  simp only [parse_miller, hscan, hsplit, h1, h2, h3]

/-- Priority (b): if the first parenthesized class-content group is a single
3-digit token, `parse_miller` digit-splits it. -/
theorem parse_miller_first_paren_compact (a : List Char) (d1 d2 d3 : Char) (b : List Char)
    (ha : ∀ c ∈ a, c ≠ '(')
    (hd1 : d1.isDigit = true) (hd2 : d2.isDigit = true) (hd3 : d3.isDigit = true) :
    parse_miller (a ++ '(' :: ([d1, d2, d3] ++ ')' :: b)) =
      (digitValI d1, digitValI d2, digitValI d3) := by
  have hin : ∀ c ∈ ([d1, d2, d3] : List Char), millerChar c = true := by
    intro c hc
    rw [List.mem_cons, List.mem_cons, List.mem_singleton] at hc
    rcases hc with rfl | rfl | rfl
    · exact digit_millerChar c hd1
    · exact digit_millerChar c hd2
    · exact digit_millerChar c hd3
  have hscan := parenScan_finds a [d1, d2, d3] b ha hin (by simp)
  have hsplit : splitTokens [d1, d2, d3] = [[d1, d2, d3]] := by
    apply splitTokens_no_sep _ (by simp)
    intro c hc
    rw [List.mem_cons, List.mem_cons, List.mem_singleton] at hc
    rcases hc with rfl | rfl | rfl
    · exact digit_not_sep c hd1
    · exact digit_not_sep c hd2
    · exact digit_not_sep c hd3
  simp only [parse_miller, hscan, hsplit, hd1, hd2, hd3]
  simp

/-- Priority (c): with no parenthesis anywhere and a word-bounded 3-digit token
preceded by a digit-free prefix, `parse_miller` digit-splits that token. -/
theorem parse_miller_bare_fallback (a : List Char) (d1 d2 d3 : Char) (b : List Char)
    (haP : ∀ c ∈ a, c ≠ '(') (haD : ∀ c ∈ a, c.isDigit = false)
    (hbP : ∀ c ∈ b, c ≠ '(')
    (hd1 : d1.isDigit = true) (hd2 : d2.isDigit = true) (hd3 : d3.isDigit = true)
    (hlast : ∀ c, a.getLast? = some c → isWordChar c = false)
    (hbw : isWordHead b = false) :
    parse_miller (a ++ d1 :: d2 :: d3 :: b) = (digitValI d1, digitValI d2, digitValI d3) := by
  have hnop : ∀ c ∈ a ++ d1 :: d2 :: d3 :: b, c ≠ '(' := by
    intro c hc
    rw [List.mem_append] at hc
    cases hc with
    | inl h => exact haP c h
    | inr h =>
      rw [List.mem_cons, List.mem_cons, List.mem_cons] at h
      rcases h with rfl | rfl | rfl | h
      · exact digit_not_lparen c hd1
      · exact digit_not_lparen c hd2
      · exact digit_not_lparen c hd3
      · exact hbP c h
  have hparen : rscan parenAt false (a ++ d1 :: d2 :: d3 :: b) = none := by
    apply rscan_eq_none
    intro pw' l' hs
    cases l' with
    | nil => rfl
    | cons c0 r0 => exact parenAt_none_of_head pw' c0 r0 (hnop c0 (hs.subset (List.mem_cons_self c0 r0)))
  have h3scan : rscan d3At false (a ++ d1 :: d2 :: d3 :: b) = some (d1, d2, d3) := by
    apply rscan_eq_of d3At a (d1 :: d2 :: d3 :: b) false (d1, d2, d3)
    · intro pw' l' hs hl
      obtain ⟨a₂, ha₂s, ha₂ne, hdec⟩ := suffix_longer_decomp a l' (d1 :: d2 :: d3 :: b) hs hl
      subst hdec
      cases a₂ with
      | nil => exact absurd rfl ha₂ne
      | cons c0 a₃ =>
        rw [List.cons_append]
        exact d3At_none_of_head pw' c0 _ (haD c0 (ha₂s.subset (List.mem_cons_self c0 a₃)))
    · have hpw : prevWordAfter false a = false := by
        unfold prevWordAfter
        cases hg : a.getLast? with
        | none => rfl
        | some c => exact hlast c hg
      rw [hpw]
      unfold d3At
      simp [hd1, hd2, hd3, hbw]
  simp only [parse_miller, hparen, millerFallback, h3scan]

/-- Priority (d): with no parenthesis and no digit at all, the default. -/
theorem parse_miller_default (text : List Char)
    (h : ∀ c ∈ text, c ≠ '(' ∧ c.isDigit = false) :
    parse_miller text = (1, 0, 0) := by
  have hparen : rscan parenAt false text = none := by
    apply rscan_eq_none
    intro pw' l' hs
    cases l' with
    | nil => rfl
    | cons c0 r0 =>
      exact parenAt_none_of_head pw' c0 r0 (h c0 (hs.subset (List.mem_cons_self c0 r0))).1
  have h3scan : rscan d3At false text = none := by
    apply rscan_eq_none
    intro pw' l' hs
    cases l' with
    | nil => rfl
    | cons c0 r0 =>
      exact d3At_none_of_head pw' c0 r0 (h c0 (hs.subset (List.mem_cons_self c0 r0))).2
  simp only [parse_miller, hparen, millerFallback, h3scan]

/-! ### Concrete inputs used by the claims -/

def validatorTrue : List Char → Bool := fun _ => true

def c1cx : List Char := "(12) (1, -1, 1)".data
def c1pre : List Char := "(12) ".data
def c1triple : List Char := "(1, -1, 1)".data
def c1wA : List Char := "slab ".data
def c1wIn : List Char := "1, -1, 1".data
def c1wB : List Char := " x".data
def c1wT1 : List Char := "1".data
def c1wT2 : List Char := "-1".data

def q2cx : List Char := "0 layers vacuum 0 0x0".data
def q2w : List Char := "build a slab".data

def q3w : List Char := "mp-149 SrTiO3".data
def mp149L : List Char := "mp-149".data
def d149 : List Char := "149".data
def q3wB : List Char := " SrTiO3".data

def q7w : List Char := "make a nice surface".data

def c8cx : List Char := "(12) 345 (111)".data
def c8pre : List Char := "(12) 345 ".data
def c8par : List Char := "(111)".data
def c8wA : List Char := "slab ".data
def c8wB : List Char := " x".data
def c8cA : List Char := "hkl ".data
def c8cB : List Char := " plane".data

def s75 : List Char := "7.5".data
def s15d : List Char := "1.5d".data
def s2d : List Char := "2d".data
def sabc : List Char := "abc".data
def s0 : List Char := "0".data
def sm3 : List Char := "-3".data

def c6base : List Char := "mp-149_hkl1_0_0_L6_V15_S1x1".data
def m111seg : List Char := "m1_1_1".data

def q10 : List Char := "fetch MP-149 please".data
def mp149U : List Char := "MP-149".data
def c10base : List Char := "MP-149_hkl1_4_9_L6_V15_S1x1".data
def c10suf : List Char := "_hkl1_4_9_L6_V15_S1x1".data

def fX : List Char := "Si".data
def e1X : MPEntry := { material_id := some "mp-a".data, energy_above_hull := none, structureId := 0 }
def e2X : MPEntry := { material_id := some "mp-b".data, energy_above_hull := some 1, structureId := 1 }
def e3X : MPEntry := { material_id := some "mp-c".data, energy_above_hull := some 1, structureId := 2 }
def resultsX : List MPEntry := [e1X, e2X, e3X]

/-! ### Claim C1 -/

/-- Claim C1 as stated is false: the input below contains the parenthesized
signed triple `(1, -1, 1)`, but because an earlier parenthesized numeric group
`(12)` is the one the regex finds (and it is neither a triple nor a 3-digit
token), `parse_miller` returns the default `(1, 0, 0)`, not `(1, -1, 1)`. -/
theorem claim_C1_counterexample :
    c1cx = c1pre ++ c1triple ∧
    parse_miller c1cx = (1, 0, 0) ∧
    parse_miller c1cx ≠ (1, -1, 1) := by
  refine ⟨by decide, by decide, ?_⟩
  decide

/-- Claim C1 (amended): for every input text whose FIRST parenthesized group of
digit/sign/comma/whitespace characters splits into three signed integers
`h k l`, `parse_miller` returns exactly `(h, k, l)`, including negative
components.  ("First" is expressed by the prefix `a` containing no `(`.) -/
theorem claim_C1_theorem (a inner b t1 t2 t3 : List Char) (h k l : ℤ)
    (ha : ∀ c ∈ a, c ≠ '(') (hin : ∀ c ∈ inner, millerChar c = true)
    (hsplit : splitTokens inner = [t1, t2, t3])
    (h1 : pyInt t1 = some h) (h2 : pyInt t2 = some k) (h3 : pyInt t3 = some l) :
    parse_miller (a ++ '(' :: (inner ++ ')' :: b)) = (h, k, l) :=
  parse_miller_first_paren_triple a inner b t1 t2 t3 h k l ha hin hsplit h1 h2 h3

/-- Claim C1 witness: the amended theorem applied at
`"slab (1, -1, 1) x"`, whose first parenthesized group is the signed triple. -/
theorem claim_C1_witness :
    parse_miller (c1wA ++ '(' :: (c1wIn ++ ')' :: c1wB)) = (1, -1, 1) :=
  claim_C1_theorem c1wA c1wIn c1wB c1wT1 c1wT2 c1wT1 1 (-1) 1
    (by decide) (by decide) (by decide) (by decide) (by decide) (by decide)

/-! ### Claim C2 -/

/-- Claim C2 as stated is false: the extractors impose no positivity check.  On
`"0 layers vacuum 0 0x0"` the parsed layer count is 0, the vacuum is 0, and the
supercell is (0, 0) — none of them positive.  (The validator argument is
irrelevant to these fields.) -/
theorem claim_C2_counterexample :
    (parse_query validatorTrue q2cx).layers = 0 ∧
    (parse_query validatorTrue q2cx).vacuum = 0 ∧
    (parse_query validatorTrue q2cx).supercell = (0, 0) ∧
    ¬(0 < (parse_query validatorTrue q2cx).layers ∧
      0 < (parse_query validatorTrue q2cx).vacuum ∧
      0 < (parse_query validatorTrue q2cx).supercell.1 ∧
      0 < (parse_query validatorTrue q2cx).supercell.2) := by
  refine ⟨by decide, by decide, by decide, ?_⟩
  rintro ⟨h1, -, -, -⟩
  rw [show (parse_query validatorTrue q2cx).layers = 0 from by decide] at h1
  exact Nat.lt_irrefl 0 h1

/-- Claim C2 (amended): for every validator and every input text, the parsed
`layers` is a nonnegative integer, `vacuum` a nonnegative rational, and
`supercell` a pair of nonnegative integers (`layers` and the supercell
components are nonnegative by construction, being `Nat`-valued digit runs;
`vacuum ≥ 0` is proved); the defaults are 6, 15.0 and (1, 1): on any text with
no digit at all (so no numeric pattern can match), exactly these defaults are
returned.  Positivity, as originally claimed, does not hold. -/
theorem claim_C2_theorem (v : List Char → Bool) (text : List Char) :
    0 ≤ (parse_query v text).vacuum ∧
    ((∀ c ∈ text, c.isDigit = false) →
      (parse_query v text).layers = 6 ∧
      (parse_query v text).vacuum = 15 ∧
      (parse_query v text).supercell = (1, 1)) :=
  ⟨parse_vacuum_nonneg text, fun hnd =>
    ⟨parse_layers_default text hnd, parse_vacuum_default text hnd,
     parse_supercell_default text hnd⟩⟩

/-- Claim C2 witness: the amended theorem applied at the digit-free query
`"build a slab"`. -/
theorem claim_C2_witness :
    0 ≤ (parse_query validatorTrue q2w).vacuum ∧
    (parse_query validatorTrue q2w).layers = 6 ∧
    (parse_query validatorTrue q2w).vacuum = 15 ∧
    (parse_query validatorTrue q2w).supercell = (1, 1) :=
  ⟨(claim_C2_theorem validatorTrue q2w).1,
   (claim_C2_theorem validatorTrue q2w).2 (by decide)⟩

/-! ### Claim C8 -/

/-- Claim C8 as stated is false: its priority (b) promises that a parenthesized
3-digit token is consulted before the bare word-bounded fallback (c), but the
code only ever examines the FIRST parenthesized numeric group.  In
`"(12) 345 (111)"` that group, `(12)`, yields nothing, and the fallback then
picks the bare `345` rather than the later parenthesized `(111)`. -/
theorem claim_C8_counterexample :
    c8cx = c8pre ++ c8par ∧
    parse_miller c8cx = (3, 4, 5) ∧
    parse_miller c8cx ≠ (1, 1, 1) := by
  refine ⟨by decide, by decide, ?_⟩
  decide

/-- Claim C8 (amended): the extractor's priority order, with (a) and (b) both
restricted to the FIRST parenthesized group of digit/sign/comma/whitespace
characters (prefix `a` contains no `(`): (a) if that group splits into three
signed integers, they win; (b) if instead that group is a single 3-digit token,
it is digit-split (no negative indices representable); (c) with no parenthesis
anywhere in the text, a standalone word-bounded 3-digit token is digit-split;
(d) with no parenthesis and no digit at all, the default (1, 0, 0). -/
theorem claim_C8_theorem :
    (∀ (a inner b t1 t2 t3 : List Char) (h k l : ℤ),
      (∀ c ∈ a, c ≠ '(') → (∀ c ∈ inner, millerChar c = true) →
      splitTokens inner = [t1, t2, t3] →
      pyInt t1 = some h → pyInt t2 = some k → pyInt t3 = some l →
      parse_miller (a ++ '(' :: (inner ++ ')' :: b)) = (h, k, l)) ∧
    (∀ (a : List Char) (d1 d2 d3 : Char) (b : List Char),
      (∀ c ∈ a, c ≠ '(') →
      d1.isDigit = true → d2.isDigit = true → d3.isDigit = true →
      parse_miller (a ++ '(' :: ([d1, d2, d3] ++ ')' :: b)) =
        (digitValI d1, digitValI d2, digitValI d3)) ∧
    (∀ (a : List Char) (d1 d2 d3 : Char) (b : List Char),
      (∀ c ∈ a, c ≠ '(') → (∀ c ∈ a, c.isDigit = false) → (∀ c ∈ b, c ≠ '(') →
      d1.isDigit = true → d2.isDigit = true → d3.isDigit = true →
      (∀ c, a.getLast? = some c → isWordChar c = false) → isWordHead b = false →
      parse_miller (a ++ d1 :: d2 :: d3 :: b) = (digitValI d1, digitValI d2, digitValI d3)) ∧
    (∀ text : List Char, (∀ c ∈ text, c ≠ '(' ∧ c.isDigit = false) →
      parse_miller text = (1, 0, 0)) :=
  ⟨parse_miller_first_paren_triple,
   parse_miller_first_paren_compact,
   parse_miller_bare_fallback,
   parse_miller_default⟩

/-- Claim C8 witness: priorities (b) and (c) of the amended theorem applied at
`"slab (111) x"` and `"hkl 110 plane"`. -/
theorem claim_C8_witness :
    parse_miller (c8wA ++ '(' :: (['1', '1', '1'] ++ ')' :: c8wB)) = (1, 1, 1) ∧
    parse_miller (c8cA ++ '1' :: '1' :: '0' :: c8cB) = (1, 1, 0) :=
  ⟨claim_C8_theorem.2.1 c8wA '1' '1' '1' c8wB (by decide) (by decide) (by decide) (by decide),
   claim_C8_theorem.2.2.1 c8cA '1' '1' '0' c8cB (by decide) (by decide) (by decide)
     (by decide) (by decide) (by decide) (by decide) (by decide)⟩

deriving instance DecidableEq for Except

/-! ### Helpers for the query-level claims -/

theorem pyTruthy_some_of_ne {s : List Char} (hs : s ≠ []) : pyTruthy (some s) = true := by
  cases s with
  | nil => exact absurd rfl hs
  | cons a t => rfl

theorem parse_query_mp_id (v : List Char → Bool) (q : List Char) :
    (parse_query v q).mp_id = parse_mp_id q := rfl

theorem parse_query_formula_ne_nil (v : List Char → Bool) (q s : List Char)
    (h : (parse_query v q).formula = some s) : s ≠ [] := by
  have h2 : (if pyTruthy (parse_mp_id q) then none else parse_formula v q) = some s := h
  split at h2
  · exact Option.noConfusion h2
  · exact parse_formula_ne_nil v q s h2

theorem parse_query_formula_none (v : List Char → Bool) (q s : List Char)
    (h : parse_mp_id q = some s) : (parse_query v q).formula = none := by
  have ht : pyTruthy (parse_mp_id q) = true := by
    rw [h]
    exact pyTruthy_some_of_ne (parse_mp_id_ne_nil q s h)
  show (if pyTruthy (parse_mp_id q) then none else parse_formula v q) = none
  rw [ht]
  rfl

theorem hullKey_top_iff (e : MPEntry) : hullKey e = ⊤ ↔ e.energy_above_hull = none := by
  unfold hullKey
  cases hq : e.energy_above_hull with
  | none => simp
  | some q => simp

/-! ### Claim C3 -/

/-- Claim C3 (confirmed): at most one of `mp_id`/`formula` is non-null, and
the material id takes precedence: whenever `parse_mp_id` matches (in
particular whenever the text decomposes into a whole-word case-insensitive
`mp-<digits>` occurrence), `mp_id` is that match and `formula` is null — the
formula extractor is short-circuited by `formula = None if mp_id else ...`. -/
theorem claim_C3_theorem (v : List Char → Bool) (q : List Char) :
    (¬((parse_query v q).mp_id.isSome = true ∧ (parse_query v q).formula.isSome = true)) ∧
    (∀ s, parse_mp_id q = some s →
      (parse_query v q).mp_id = some s ∧ (parse_query v q).formula = none) ∧
    (∀ (a : List Char) (c1 c2 : Char) (ds b : List Char),
      (c1 = 'm' ∨ c1 = 'M') → (c2 = 'p' ∨ c2 = 'P') →
      ds ≠ [] → (∀ c ∈ ds, c.isDigit = true) →
      (∀ c, a.getLast? = some c → isWordChar c = false) →
      isWordHead b = false →
      q = a ++ c1 :: c2 :: '-' :: (ds ++ b) →
      (parse_query v q).mp_id.isSome = true) := by
  refine ⟨?_, ?_, ?_⟩
  · rintro ⟨ha, hb⟩
    cases hm : parse_mp_id q with
    | none =>
      rw [parse_query_mp_id, hm] at ha
      exact Bool.noConfusion ha
    | some s =>
      rw [parse_query_formula_none v q s hm] at hb
      exact Bool.noConfusion hb
  · intro s hm
    exact ⟨by rw [parse_query_mp_id, hm], parse_query_formula_none v q s hm⟩
  · intro a c1 c2 ds b h1 h2 hne hds hlast hbw hq
    rw [parse_query_mp_id]
    subst hq
    show (rscan mpAt false (a ++ c1 :: c2 :: '-' :: (ds ++ b))).isSome = true
    apply rscan_isSome_of mpAt a (c1 :: c2 :: '-' :: (ds ++ b)) false
    have hpw : prevWordAfter false a = false := by
      unfold prevWordAfter
      cases hg : a.getLast? with
      | none => rfl
      | some c => exact hlast c hg
    rw [hpw]
    obtain ⟨htake, hdrop⟩ := takeWhile_append_all (p := Char.isDigit) ds b hds
      (not_wordHead_not_digit b hbw)
    unfold mpAt
    rcases h1 with rfl | rfl <;> rcases h2 with rfl | rfl <;>
      simp [htake, hdrop, hne, hbw]

/-- Claim C3 witness: the theorem applied at `"mp-149 SrTiO3"` (which contains
both a material id and a formula-like token). -/
theorem claim_C3_witness :
    (parse_query validatorTrue q3w).mp_id.isSome = true ∧
    (parse_query validatorTrue q3w).formula = none :=
  ⟨(claim_C3_theorem validatorTrue q3w).2.2 [] 'm' 'p' d149 q3wB
      (Or.inl rfl) (Or.inl rfl) (by decide) (by decide) (by decide) (by decide) (by decide),
   ((claim_C3_theorem validatorTrue q3w).2.1 mp149L (by decide)).2⟩

/-! ### Claim C4 -/

/-- Claim C4 (confirmed): when the formula search returns entries, the selected
one (a) is the leftmost entry attaining the minimal energy-above-hull key, so
ties keep the collaborator order (Python's `sorted` is stable; the embedded
insertion sort is stable the same way); (b) its key is a lower bound of all
keys, where a missing metric is the key `+∞`; and (c) an entry with a missing
metric is selected only if every entry's metric is missing. -/
theorem claim_C4_theorem (formula : List Char) (results : List MPEntry) (top : MPEntry)
    (h : get_structure_by_formula_select formula results = .ok top) :
    (∃ l₁ l₂, results = l₁ ++ top :: l₂ ∧ ∀ e ∈ l₁, hullKey top < hullKey e) ∧
    (∀ e ∈ results, hullKey top ≤ hullKey e) ∧
    ((∃ e ∈ results, e.energy_above_hull ≠ none) → top.energy_above_hull ≠ none) := by
  unfold get_structure_by_formula_select at h
  split at h
  · exact Except.noConfusion h
  · split at h
    · exact Except.noConfusion h
    · rename_i top0 rest hsort
      split at h
      · rw [Except.ok.injEq] at h
        subst h
        obtain ⟨hdec, hmin⟩ := sorted_head_leftmost_min results top0 rest hsort
        refine ⟨hdec, hmin, ?_⟩
        rintro ⟨e, he, hnone⟩ htop
        apply hnone
        rw [← hullKey_top_iff]
        have h1 : hullKey top0 ≤ hullKey e := hmin e he
        rw [(hullKey_top_iff top0).mpr htop] at h1
        exact top_le_iff.mp h1
      · exact Except.noConfusion h

/-- Claim C4 witness: the theorem applied to a three-entry result list with a
missing metric first and two tied finite metrics behind it; the selected entry
is the earlier of the tied pair. -/
theorem claim_C4_witness :
    (∃ l₁ l₂, resultsX = l₁ ++ e2X :: l₂ ∧ ∀ e ∈ l₁, hullKey e2X < hullKey e) ∧
    (∀ e ∈ resultsX, hullKey e2X ≤ hullKey e) ∧
    ((∃ e ∈ resultsX, e.energy_above_hull ≠ none) → e2X.energy_above_hull ≠ none) :=
  claim_C4_theorem fX resultsX e2X (by decide)

/-! ### Claim C5 -/

/-- Claim C5 (confirmed): thickness-override parsing — a plain numeric string
yields its literal value (`"7.5"` gives 7.5 for every d_hkl); the factor form
yields `max(0.01, factor * d_hkl)` (`"1.5d"` at d_hkl = 2 gives 3); a string
parseable by neither form produces the error naming the offending value, and
that message contains the original string verbatim. -/
theorem claim_C5_theorem :
    (∀ d : ℚ, effThickness s75 d = .ok (15/2)) ∧
    effThickness s15d 2 = .ok 3 ∧
    (∀ (s : List Char) (d f : ℚ),
      (lowerL (trimPy s)).getLast? = some 'd' →
      pyFloat (lowerL (trimPy s)).dropLast = some f →
      effThickness s d = .ok (max (1/100) (f * d))) ∧
    (∀ (s : List Char) (d : ℚ),
      ((lowerL (trimPy s)).getLast? = some 'd' →
        pyFloat (lowerL (trimPy s)).dropLast = none) →
      ((lowerL (trimPy s)).getLast? ≠ some 'd' →
        pyFloat (lowerL (trimPy s)) = none) →
      effThickness s d = .error (thkErrMsg s)) ∧
    (∀ s : List Char, s <:+: thkErrMsg s) := by
  refine ⟨fun d => ?_, ?_, ?_, ?_, fun s => ⟨thkErrPre, thkErrSuf, rfl⟩⟩
  · simp only [effThickness]
    rw [if_neg (by decide : ¬((lowerL (trimPy s75)).getLast? = some 'd'))]
    have h : pyFloat (lowerL (trimPy s75)) = some ((7 : ℚ) + 5 / 10 ^ 1) := rfl
    simp only [h, Except.ok.injEq]
    norm_num
  · simp only [effThickness]
    rw [if_pos (by decide : (lowerL (trimPy s15d)).getLast? = some 'd')]
    have h : pyFloat (lowerL (trimPy s15d)).dropLast = some ((1 : ℚ) + 5 / 10 ^ 1) := rfl
    simp only [h, Except.ok.injEq]
    have h2 : ((1 : ℚ) + 5 / 10 ^ 1) * 2 = 3 := by norm_num
    rw [h2, max_eq_right (by norm_num : (1 / 100 : ℚ) ≤ 3)]
  · intro s d f h1 h2
    simp only [effThickness]
    rw [if_pos h1, h2]
  · intro s d h1 h2
    simp only [effThickness]
    by_cases hd : (lowerL (trimPy s)).getLast? = some 'd'
    · rw [if_pos hd, h1 hd]
    · rw [if_neg hd, h2 hd]

/-- Claim C5 witness: the factor form at `"2d"` with d_hkl = 5, and the failure
form at `"abc"`. -/
theorem claim_C5_witness :
    effThickness s2d 5 = .ok (max (1/100) (2 * 5)) ∧
    effThickness sabc 1 = .error (thkErrMsg sabc) ∧
    sabc <:+: thkErrMsg sabc := by
  have h2 : pyFloat (lowerL (trimPy s2d)).dropLast = some (2 : ℚ) := by
    have h : pyFloat (lowerL (trimPy s2d)).dropLast = some (((2 : ℕ) : ℚ)) := rfl
    rw [h]
    norm_num
  exact ⟨claim_C5_theorem.2.2.1 s2d 5 2 (by decide) h2,
    claim_C5_theorem.2.2.2.1 sabc 1 (by decide) (by decide),
    claim_C5_theorem.2.2.2.2 sabc⟩

/-! ### Claim C6 -/

theorem pyRound_fifteen : pyRound (15 : ℚ) = 15 := by
  have hf : ⌊(15 : ℚ)⌋ = 15 := by norm_num
  unfold pyRound
  rw [hf]
  rw [if_pos (by norm_num)]

/-- Claim C6 (confirmed): base-name construction is a deterministic function of
its five inputs; for id `"mp-149"`, miller `(1,0,0)`, 6 layers, vacuum 15.0 and
supercell `(1,1)` it yields exactly `"mp-149_hkl1_0_0_L6_V15_S1x1"`; a negative
Miller component is written `m` followed by its absolute value (miller
`(-1,1,1)` gives the segment `"m1_1_1"`); the vacuum is rounded to a nearest
integer (`|round(q) - q| ≤ 1/2`; Python's `round` breaks ties to even, which is
still a nearest integer); and no base name ever contains a space, slash,
backslash, or the angstrom sign. -/
theorem claim_C6_theorem :
    base_name mp149L (1, 0, 0) 6 15 1 1 = c6base ∧
    hkl_to_str (-1, 1, 1) = m111seg ∧
    (∀ q : ℚ, |((pyRound q : ℤ) : ℚ) - q| ≤ 1/2) ∧
    (∀ (idf : List Char) (m : ℤ × ℤ × ℤ) (ly : ℕ) (vc : ℚ) (nx ny : ℕ),
      ∀ c ∈ base_name idf m ly vc nx ny,
        c ≠ ' ' ∧ c ≠ '/' ∧ c ≠ '\\' ∧ c ≠ 'Å') := by
  refine ⟨?_, by decide, pyRound_near, ?_⟩
  · simp only [base_name, pyRound_fifteen]
    decide
  · intro idf m ly vc nx ny c hc
    exact sanitize_name_no_bad _ c hc

/-- Claim C6 witness: the no-forbidden-characters part applied to the first
character of the concrete base name. -/
theorem claim_C6_witness :
    'm' ≠ ' ' ∧ 'm' ≠ '/' ∧ 'm' ≠ '\\' ∧ 'm' ≠ 'Å' := by
  have h := claim_C6_theorem.2.2.2 mp149L (1, 0, 0) 6 15 1 1 'm'
  apply h
  rw [claim_C6_theorem.1]
  decide

/-! ### Claim C7 -/

/-- Claim C7 (confirmed): `SlabAgent.run` raises the no-material error exactly
when the parsed query has both `mp_id` and `formula` null, and in that case no
resolution path (fetch-by-id or search-by-formula collaborator call) is
produced; conversely, whenever at least one is non-null a resolution path is
taken. -/
theorem claim_C7_theorem (v : List Char → Bool) (q : List Char) :
    (((parse_query v q).mp_id = none ∧ (parse_query v q).formula = none) ↔
      resolveStep (parse_query v q) = .error noMaterialMsg) ∧
    ((parse_query v q).mp_id ≠ none ∨ (parse_query v q).formula ≠ none →
      ∃ path, resolveStep (parse_query v q) = .ok path) := by
  have htm : ∀ s, (parse_query v q).mp_id = some s → pyTruthy (parse_query v q).mp_id = true := by
    intro s hm
    rw [hm]
    exact pyTruthy_some_of_ne (parse_mp_id_ne_nil q s (by rw [← parse_query_mp_id v q]; exact hm))
  have htf : ∀ s, (parse_query v q).formula = some s →
      pyTruthy (parse_query v q).formula = true := by
    intro s hf
    rw [hf]
    exact pyTruthy_some_of_ne (parse_query_formula_ne_nil v q s hf)
  constructor
  · constructor
    · rintro ⟨h1, h2⟩
      simp [resolveStep, h1, h2, pyTruthy]
    · intro h
      constructor
      · cases hm : (parse_query v q).mp_id with
        | none => rfl
        | some s =>
          rw [show resolveStep (parse_query v q) =
              (if !pyTruthy (parse_query v q).mp_id && !pyTruthy (parse_query v q).formula
               then .error noMaterialMsg
               else if pyTruthy (parse_query v q).mp_id
               then .ok (.byId ((parse_query v q).mp_id.getD []))
               else .ok (.byFormula ((parse_query v q).formula.getD []))) from rfl,
            htm s hm] at h
          simp at h
      · cases hf : (parse_query v q).formula with
        | none => rfl
        | some s =>
          rw [show resolveStep (parse_query v q) =
              (if !pyTruthy (parse_query v q).mp_id && !pyTruthy (parse_query v q).formula
               then .error noMaterialMsg
               else if pyTruthy (parse_query v q).mp_id
               then .ok (.byId ((parse_query v q).mp_id.getD []))
               else .ok (.byFormula ((parse_query v q).formula.getD []))) from rfl,
            htf s hf] at h
          rcases hb : pyTruthy (parse_query v q).mp_id <;> rw [hb] at h <;> simp at h
  · intro hor
    unfold resolveStep
    rcases hor with h1 | h2
    · cases hm : (parse_query v q).mp_id with
      | none => exact absurd hm h1
      | some s =>
        have hs : s ≠ [] := parse_mp_id_ne_nil q s (by rw [← parse_query_mp_id v q]; exact hm)
        rw [pyTruthy_some_of_ne hs]
        exact ⟨.byId ((some s).getD []), by simp⟩
    · cases hf : (parse_query v q).formula with
      | none => exact absurd hf h2
      | some s =>
        have hs : s ≠ [] := parse_query_formula_ne_nil v q s hf
        rw [pyTruthy_some_of_ne hs]
        cases hb : pyTruthy (parse_query v q).mp_id with
        | true => exact ⟨.byId ((parse_query v q).mp_id.getD []), by simp⟩
        | false => exact ⟨.byFormula ((some s).getD []), by simp⟩

/-- Claim C7 witness: on `"make a nice surface"` no material is identified
(every token is a stopword or lowercase), so the dispatch fails with the
no-material error before any resolution path exists, for every validator
behaviour on the scanned tokens (instantiated at the all-accepting one). -/
theorem claim_C7_witness :
    resolveStep (parse_query validatorTrue q7w) = .error noMaterialMsg :=
  (claim_C7_theorem validatorTrue q7w).1.mp ⟨by decide, by decide⟩

/-! ### Claim C9 -/

/-- Claim C9 (confirmed): a plain-number thickness override that is zero or
negative is NOT rejected during parsing — `"0"` parses to 0 and `"-3"` to -3,
passed unmodified (the `max(0.01, ...)` floor applies only to the `<factor>d`
form) — and the thickness-driven builder then rejects it with the
"thickness must be > 0" validation error before any geometry is built. -/
theorem claim_C9_theorem :
    (∀ d : ℚ, effThickness s0 d = .ok 0) ∧
    (∀ (s : List Char) (d x : ℚ),
      (lowerL (trimPy s)).getLast? ≠ some 'd' →
      pyFloat (lowerL (trimPy s)) = some x →
      effThickness s d = .ok x) ∧
    (∀ t vac : ℚ, t ≤ 0 → pmg_slab_with_thickness_guard t vac = .error thkPosMsg) := by
  refine ⟨fun d => ?_, ?_, ?_⟩
  · simp only [effThickness]
    rw [if_neg (by decide : ¬((lowerL (trimPy s0)).getLast? = some 'd'))]
    have h : pyFloat (lowerL (trimPy s0)) = some (((0 : ℕ) : ℚ)) := rfl
    simp only [h, Except.ok.injEq]
    norm_num
  · intro s d x h1 h2
    simp only [effThickness]
    rw [if_neg h1, h2]
  · intro t vac ht
    simp only [pmg_slab_with_thickness_guard]
    rw [if_pos ht]

/-- Claim C9 witness: `"-3"` parses to the negative literal -3 (no floor), and
the builder guard rejects it. -/
theorem claim_C9_witness :
    effThickness sm3 1 = .ok (-3) ∧
    pmg_slab_with_thickness_guard (-3) 15 = .error thkPosMsg := by
  have h2 : pyFloat (lowerL (trimPy sm3)) = some (-3 : ℚ) := by
    have h : pyFloat (lowerL (trimPy sm3)) = some (-((3 : ℕ) : ℚ)) := rfl
    rw [h]
    norm_num
  exact ⟨claim_C9_theorem.2.1 sm3 1 (-3) (by decide) h2,
    claim_C9_theorem.2.2 (-3) 15 (by norm_num)⟩

/-! ### Claim C10 -/

/-- Claim C10 (confirmed): the material-id extractor matches case-insensitively
but returns the matched substring in its original case — `"fetch MP-149
please"` yields `mp_id = "MP-149"`, not the lowercase `"mp-149"`; in general the
returned id is a verbatim substring of the input; and the original casing
propagates through the dispatch (`byId "MP-149"`) and into the output base name
(which begins with `"MP-149"`).  (On this query the Miller fallback also picks
up the bare digits `149`, hence `hkl1_4_9` in the base name.) -/
theorem claim_C10_theorem (v : List Char → Bool) :
    (parse_query v q10).mp_id = some mp149U ∧
    mp149U ≠ mp149L ∧
    (∀ text s, parse_mp_id text = some s → s <:+: text) ∧
    resolveStep (parse_query v q10) = .ok (.byId mp149U) ∧
    base_name (idOrFormula (parse_query v q10).mp_id (parse_query v q10).formula)
      (parse_query v q10).miller (parse_query v q10).layers
      (parse_query v q10).vacuum (parse_query v q10).supercell.1
      (parse_query v q10).supercell.2 = c10base ∧
    mp149U <+: c10base := by
  refine ⟨rfl, by decide, fun text s h => parse_mp_id_infix text s h, rfl, ?_, ⟨c10suf, by decide⟩⟩
  have hvac : (parse_query v q10).vacuum = 15 := by
    show parse_vacuum q10 = 15
    decide
  rw [hvac]
  show base_name mp149U (1, 4, 9) 6 15 1 1 = c10base
  simp only [base_name, pyRound_fifteen]
  decide

/-- Claim C10 witness: the substring property applied at the concrete query. -/
theorem claim_C10_witness : mp149U <:+: q10 :=
  (claim_C10_theorem validatorTrue).2.2.1 q10 mp149U (by decide)
